import Mathlib

/-!
Verification of dnscli: name canonicalization, record-set assembly, object-type decoding
and search-result rendering.

A shallow embedding of the request-building and response-formatting layer of
`mixanemca/dnscli`:

* `cmd/rr-add.go`    : `rrReplaceCmdRun`
* `models/search.go` : `ObjectType`, `ObjectType.String`, `ObjectType.UnmarshalJSON`,
  `SearchResults.PrettyString`

Go strings are modelled by Lean `String`s (sequences of Unicode scalar values), which is
faithful for valid UTF-8 input; Go's byte-wise string comparison coincides with the
code-point-wise lexicographic order on such strings.
-/

namespace Dnscli

/-! ## Go standard library: `strings` -/

/-- Go `strings.HasSuffix(s, ".")`: the last character of `s` is a dot. -/
def HasSuffixDot (s : String) : Bool :=
  s.data.getLast? == some '.'

/-- Scan of `strings.Index`: the byte offset (starting the count at `i`) of the first
position of `s` at which `substr` occurs, `-1` when there is none. -/
def indexFrom (substr : List Char) : List Char → Nat → Int
  | [], i => if substr.isPrefixOf [] then (i : Int) else -1
  | c :: cs, i =>
    if substr.isPrefixOf (c :: cs) then (i : Int) else indexFrom substr cs (i + c.utf8Size)

/-- Go `strings.Index(s, substr)`. -/
def Index (s substr : String) : Int :=
  indexFrom substr.data s.data 0

/-- Go `strings.Contains(s, substr)`, which is `Index(s, substr) >= 0`. -/
def Contains (s substr : String) : Bool :=
  decide (Index s substr ≥ 0)

/-- Go `unicode.ToUpper` on one rune: the ASCII range is handled inline, every other rune
goes through the Unicode case table `tbl` of the Go runtime. -/
def toUpperRune (tbl : Char → Char) (c : Char) : Char :=
  if c.toNat < 128 then
    if 'a'.toNat ≤ c.toNat ∧ c.toNat ≤ 'z'.toNat then Char.ofNat (c.toNat - 32) else c
  else tbl c

/-- Go `strings.ToUpper(s)`; `tbl` is the Unicode upper-case table for non-ASCII runes. -/
def ToUpper (tbl : Char → Char) (s : String) : String :=
  ⟨s.data.map (toUpperRune tbl)⟩

/-- Go `unicode.IsSpace`: the Unicode `White_Space` property. -/
def isSpace (c : Char) : Bool :=
  let n := c.toNat
  (0x09 ≤ n && n ≤ 0x0d) || n == 0x20 || n == 0x85 || n == 0xa0 || n == 0x1680 ||
  (0x2000 ≤ n && n ≤ 0x200a) || n == 0x2028 || n == 0x2029 || n == 0x202f ||
  n == 0x205f || n == 0x3000

/-- Go `strings.TrimSpace(s)`: all leading and trailing white space removed. -/
def TrimSpace (s : String) : String :=
  ⟨((s.data.dropWhile isSpace).reverse.dropWhile isSpace).reverse⟩

/-- Scan of `strings.Split` for a one-character separator: `cur` holds, reversed, the
characters of the piece being read. -/
def splitAux (sep : Char) : List Char → List Char → List String
  | [], cur => [⟨cur.reverse⟩]
  | c :: cs, cur =>
    if c = sep then ⟨cur.reverse⟩ :: splitAux sep cs [] else splitAux sep cs (c :: cur)

/-- Go `strings.Split(s, sep)` for a separator `sep` of one character. -/
def Split (s : String) (sep : Char) : List String :=
  splitAux sep s.data []

/-! ## `models`: canonical names -/

/-- Modelled from the spec: `models.Canonicalize` is called by `cmd/rr-add.go` and
`cmd/fz-del.go` but its body is not among the sources. Spec 4.1: "append a trailing `.`
if absent". -/
def Canonicalize (name : String) : String :=
  if HasSuffixDot name then name else name ++ "."

/-- Modelled from the spec: `models.DeCanonicalize` is called by `cmd/rr-add.go` and
`models/search.go` but its body is not among the sources. Spec 4.1: "strip a trailing `.`
if present". -/
def DeCanonicalize (name : String) : String :=
  if HasSuffixDot name then ⟨name.data.dropLast⟩ else name

/-! ## `models`: records -/

/-- `models.Record`, restricted to the two fields `rrReplaceCmdRun` sets. -/
structure Record where
  Content : String
  SetPTR : Bool
  deriving DecidableEq, Repr

/-- `models.ResourceRecordSet`, restricted to the four fields `rrReplaceCmdRun` sets
(`Type_` is the Go field `Type`, a reserved word here). -/
structure ResourceRecordSet where
  Name : String
  Type_ : String
  TTL : Int
  Records : List Record
  deriving DecidableEq, Repr

/-! ## `cmd/rr-add.go` -/

/-- The flag variables read by `rrReplaceCmdRun` (package-level variables of `cmd`). -/
structure Flags where
  name : String
  zone : String
  rrtype : String
  ttl : Int
  content : String
  setPTR : Bool
  deriving DecidableEq, Repr

/-- The two validation failures of `rrReplaceCmdRun`; both print `msg` and call
`os.Exit(1)`. -/
inductive Rejection where
  /-- Lines 61-64: "Name (%s) must not be a FQDN. Without domain %s". -/
  | nameIsFQDN (msg : String)
  /-- Lines 69-72: "Domain name %s not match with zone %s". -/
  | zoneMismatch (msg : String)
  deriving DecidableEq, Repr

/-- The message printed by a rejection. -/
def Rejection.msg : Rejection → String
  | .nameIsFQDN m => m
  | .zoneMismatch m => m

/-- What `rrReplaceCmdRun` has computed when it reaches line 105: the updated flag
variables `name`, `zone`, `rrtype` and the record set. -/
structure Built where
  name : String
  zone : String
  rrtype : String
  rrset : ResourceRecordSet
  deriving DecidableEq, Repr

deriving instance DecidableEq for Except

/-- Body of the loop of lines 86-96 for one element of `contents`: trims it, canonicalizes
it for CNAME and NS, and appends the record to `records`. -/
def recordStep (rrtype : String) (setPTR : Bool) (records : List Record) (c : String) :
    List Record :=
  let c1 := TrimSpace c
  let c2 := if rrtype = "CNAME" ∨ rrtype = "NS" then Canonicalize c1 else c1
  records ++ [{ Content := c2, SetPTR := setPTR }]

/-- Lines 82-96 of `rrReplaceCmdRun`: the loop over `strings.Split(content, ",")`,
starting from the nil slice `records`. -/
def buildRecords (rrtype : String) (setPTR : Bool) (content : String) : List Record :=
  (Split content ',').foldl (recordStep rrtype setPTR) []

/-- Lines 59-103 of `rrReplaceCmdRun`: validation and assembly of the record set. -/
def rrReplaceBuild (tbl : Char → Char) (f : Flags) : Except Rejection Built :=
  -- check that name not FQDN
  if Contains f.name f.zone then
    .error (.nameIsFQDN
      ("ERROR: Name (" ++ f.name ++ ") must not be a FQDN. Without domain " ++ f.zone ++ "\n"))
  else
    -- name = hostname + example.com
    let name := f.name ++ "." ++ f.zone
    if !Contains name f.zone then
      .error (.zoneMismatch
        ("ERROR: Domain name " ++ name ++ " not match with zone " ++ f.zone ++ "\n"))
    else
      let rrtype := ToUpper tbl f.rrtype
      let nameBearing : Bool :=
        rrtype = "A" ∨ rrtype = "AAAA" ∨ rrtype = "NS" ∨ rrtype = "CNAME" ∨ rrtype = "DNAME"
      let name := if nameBearing then Canonicalize name else name
      let zone := if nameBearing then Canonicalize f.zone else f.zone
      let records := buildRecords rrtype f.setPTR f.content
      let rrset : ResourceRecordSet :=
        { Name := Canonicalize name, Type_ := rrtype, TTL := f.ttl, Records := records }
      .ok { name := name, zone := zone, rrtype := rrtype, rrset := rrset }

/-- The collaborators of `rrReplaceCmdRun` outside the command: the Unicode case table,
the outcome of `app.New` (`some err` on failure), the outcome of
`a.Zones().AddRecordSet(zone, rrset)` (`some err` on failure) and the configured
`output-type`. -/
structure Env where
  upperTable : Char → Char
  newApp : Option String
  addRecordSet : String → ResourceRecordSet → Option String
  outputType : String

/-- Observable behaviour of one run: the text printed, the exit status and the API calls
made, in order. -/
structure RunResult where
  stdout : String
  exitCode : Nat
  apiCalls : List (String × ResourceRecordSet)
  deriving DecidableEq, Repr

/-- Go `fmt` verb `%d` for an `int`. -/
def fmtInt (n : Int) : String :=
  if n < 0 then "-" ++ Nat.repr n.natAbs else Nat.repr n.natAbs

/-- `rrReplaceCmdRun`, lines 59-128. -/
def rrReplaceCmdRun (env : Env) (f : Flags) : RunResult :=
  match rrReplaceBuild env.upperTable f with
  | .error r => { stdout := r.msg, exitCode := 1, apiCalls := [] }
  | .ok b =>
    match env.newApp with
    | some err => { stdout := err ++ "\n", exitCode := 1, apiCalls := [] }
    | none =>
      match env.addRecordSet b.zone b.rrset with
      | some err => { stdout := err ++ "\n", exitCode := 1, apiCalls := [(b.zone, b.rrset)] }
      | none =>
        if env.outputType = "json" then
          { stdout := "{}\n", exitCode := 0, apiCalls := [(b.zone, b.rrset)] }
        else
          { stdout := "Resource record " ++ DeCanonicalize b.name ++ " with type " ++ b.rrtype
              ++ " and TTL " ++ fmtInt f.ttl ++ " has been added to zone "
              ++ DeCanonicalize b.zone ++ " with content " ++ f.content ++ "\n",
            exitCode := 0, apiCalls := [(b.zone, b.rrset)] }

/-! ## Go standard library: `strconv.Atoi` -/

/-- Width in bits of the Go type `int` (`strconv.IntSize`) on the 64-bit targets the tool
is built for. -/
def intSize : Nat := 64

/-- The two error values of `strconv`: `ErrSyntax` and `ErrRange`. -/
inductive NumErr where
  | ErrSyntax
  | ErrRange
  deriving DecidableEq, Repr

/-- Digit loop of `strconv.ParseUint(s, 10, 0)`: a character that is not a decimal digit is
a syntax error, a value above `2 ^ intSize - 1` is a range error, whichever the scan meets
first; the empty string has been excluded by the caller. -/
def parseUintLoop : List Char → Nat → Except NumErr Nat
  | [], n => .ok n
  | c :: cs, n =>
    if '0'.toNat ≤ c.toNat ∧ c.toNat ≤ '9'.toNat then
      let n1 := n * 10 + (c.toNat - '0'.toNat)
      if n1 > 2 ^ intSize - 1 then .error .ErrRange else parseUintLoop cs n1
    else .error .ErrSyntax

/-- Go `strconv.ParseInt(s, 10, 0)` after the sign has been split off: `neg` tells whether
the sign was `-`, `ds` is the rest of the text. -/
def parseSigned (neg : Bool) (ds : List Char) : Except NumErr Int :=
  if ds.isEmpty then .error .ErrSyntax
  else
    match parseUintLoop ds 0 with
    | .error e => .error e
    | .ok un =>
      let cutoff := 2 ^ (intSize - 1)
      if !neg && un ≥ cutoff then .error .ErrRange
      else if neg && un > cutoff then .error .ErrRange
      else .ok (if neg then -(un : Int) else (un : Int))

/-- Go `strconv.Atoi(s)`: an optional sign `+` or `-` followed by one or more decimal
digits, with a value that fits the type `int`. -/
def Atoi (s : String) : Except NumErr Int :=
  match s.data with
  | [] => .error .ErrSyntax
  | c :: cs =>
    if c = '-' then parseSigned true cs
    else if c = '+' then parseSigned false cs
    else parseSigned false (c :: cs)

/-! ## `models/search.go` -/

/-- `type ObjectType int`. -/
abbrev ObjectType := Int

/-- `ObjectTypeAll ObjectType = iota`, the second line of the `const` block. -/
def ObjectTypeAll : ObjectType := 1

/-- Third line of the `const` block. -/
def ObjectTypeZone : ObjectType := 2

/-- Fourth line of the `const` block. -/
def ObjectTypeRecord : ObjectType := 3

/-- Fifth line of the `const` block. -/
def ObjectTypeComment : ObjectType := 4

/-- `func (t ObjectType) String() string`. -/
def ObjectType.String (t : ObjectType) : String :=
  if t = ObjectTypeAll then "all"
  else if t = ObjectTypeZone then "zone"
  else if t = ObjectTypeRecord then "record"
  else if t = ObjectTypeComment then "comment"
  else ""

/-- The errors `ObjectType.UnmarshalJSON` returns: the `*strconv.NumError` of `Atoi`
(function `Atoi`, the text `num` that was parsed, the cause) or the error made by
`fmt.Errorf`. -/
inductive UnmarshalError where
  | numError (num : String) (err : NumErr)
  | errorf (msg : String)
  deriving DecidableEq, Repr

/-- The `Error()` text of an `UnmarshalError`; `quote` is `strconv.Quote`. -/
def UnmarshalError.Error (quote : String → String) : UnmarshalError → String
  | .numError num .ErrSyntax => "strconv.Atoi: parsing " ++ quote num ++ ": invalid syntax"
  | .numError num .ErrRange => "strconv.Atoi: parsing " ++ quote num ++ ": value out of range"
  | .errorf msg => msg

/-- `func (t *ObjectType) UnmarshalJSON(b []byte) error`: the receiver's value before the
call is `t`; the result is its value after the call and the error (`none` for `nil`). -/
def UnmarshalJSON (t : ObjectType) (b : String) : ObjectType × Option UnmarshalError :=
  -- convert []byte to int
  match Atoi b with
  | .error e => (t, some (.numError b e))
  | .ok objType =>
    -- convert int to ObjectType
    if objType = ObjectTypeAll then (ObjectTypeAll, none)
    else if objType = ObjectTypeZone then (ObjectTypeZone, none)
    else if objType = ObjectTypeRecord then (ObjectTypeRecord, none)
    else if objType = ObjectTypeComment then (ObjectTypeComment, none)
    else (t, some (.errorf ("unknown search type: " ++ b ++ "\x27")))

/-- `models.SearchResult`. -/
structure SearchResult where
  Content : String
  Disabled : Bool
  Name : String
  ObjectType : ObjectType
  ZoneID : String
  Zone : String
  Type_ : String
  TTL : Int
  deriving DecidableEq, Repr

/-- `type SearchResults []SearchResult`. -/
abbrev SearchResults := List SearchResult

/-- The `less` function handed to `sort.Slice` (line 108), on the two elements compared:
`searchReults[i].Content < searchReults[j].Content`. -/
def lessContent (a b : SearchResult) : Bool :=
  decide (a.Content.data < b.Content.data)

/-- Go `fmt` verb `%t`. -/
def fmtBool (b : Bool) : String :=
  if b then "true" else "false"

/-- The eight cells of the row of one search result, lines 117-130. -/
def rowCells (r : SearchResult) : List String :=
  let content := DeCanonicalize r.Content
  let content := if content = "" then " " else content
  [content, fmtBool r.Disabled, DeCanonicalize r.Name, r.ObjectType.String,
   DeCanonicalize r.ZoneID, DeCanonicalize r.Zone, r.Type_, fmtInt r.TTL]

/-- The text one `Fprintf` of line 121 writes: the cells separated by tabs, then a newline. -/
def rowLine (r : SearchResult) : String :=
  "\t".intercalate (rowCells r) ++ "\n"

/-- Line 114: the header row. -/
def headerLine : String :=
  "content\tdisabled\tname\tobject_type\tzone_id\tzone\ttype\tttl\n"

/-- Line 115: the dashed separator row. -/
def dashLine : String :=
  "-------\t--------\t----\t-----------\t-------\t----\t----\t---\n"

/-- The lines `PrettyString` writes to the tab writer, in order; `sortSlice` is Go's
`sort.Slice` applied to the slice and a `less` function. -/
def prettyLines (sortSlice : (SearchResult → SearchResult → Bool) → SearchResults → SearchResults)
    (searchReults : SearchResults) : List String :=
  -- Sorting by Content field
  let sorted := sortSlice lessContent searchReults
  headerLine :: dashLine :: sorted.foldl (fun out r => out ++ [rowLine r]) []

/-- `func (searchReults SearchResults) PrettyString() string`; `tabwriter` is the column
alignment done by the `text/tabwriter` writer `w` between the text written to it and the
text flushed to the buffer. -/
def PrettyString (sortSlice : (SearchResult → SearchResult → Bool) → SearchResults → SearchResults)
    (tabwriter : String → String) (searchReults : SearchResults) : String :=
  tabwriter (String.join (prettyLines sortSlice searchReults))

/-- Insertion of `x` at the right end of a sorted run held in reverse: the inner loop of Go's
`insertionSortLessFunc`, which swaps `x` leftwards while it is less than its left
neighbour. -/
def insertRev (less : α → α → Bool) (x : α) : List α → List α
  | [] => [x]
  | y :: ys => if less x y then y :: insertRev less x ys else x :: y :: ys

/-- Go's `insertionSortLessFunc`, the algorithm `sort.Slice` runs on slices of at most
twelve elements. -/
def insertionSortLessFunc (less : α → α → Bool) (l : List α) : List α :=
  (l.foldl (fun acc x => insertRev less x acc) []).reverse

/-! ## Auxiliary notions for the proofs -/

/-- A decimal digit character. -/
def IsDigit (c : Char) : Prop := 48 ≤ c.toNat ∧ c.toNat ≤ 57

/-- One step of reading a decimal numeral from the left. -/
def digitStep (a : Nat) (c : Char) : Nat := a * 10 + (c.toNat - 48)

/-! ## Canonical names -/

theorem hasSuffixDot_append_dot (x : String) : HasSuffixDot (x ++ ".") = true := by
  simp [HasSuffixDot, String.data_append]

theorem hasSuffixDot_Canonicalize (x : String) : HasSuffixDot (Canonicalize x) = true := by
  unfold Canonicalize
  split
  · assumption
  · exact hasSuffixDot_append_dot x

theorem Canonicalize_of_hasSuffixDot (y : String) (hy : HasSuffixDot y = true) :
    Canonicalize y = y := by
  simp [Canonicalize, hy]

theorem dropLast_append_dot (x : String) : (⟨(x ++ ".").data.dropLast⟩ : String) = x := by
  apply String.ext
  simp [String.data_append]

/-- C1: for every name `x` that does not end in a dot, de-canonicalizing the canonical form
of `x` gives `x` back. -/
theorem DeCanonicalize_Canonicalize (x : String) (h : HasSuffixDot x = false) :
    DeCanonicalize (Canonicalize x) = x := by
  have hc : Canonicalize x = x ++ "." := by simp [Canonicalize, h]
  rw [hc]
  simp [DeCanonicalize, hasSuffixDot_append_dot, dropLast_append_dot]

/-- C2: `Canonicalize` is idempotent on every string, with or without a trailing dot, the
empty string included. -/
theorem Canonicalize_twice (x : String) :
    Canonicalize (Canonicalize x) = Canonicalize x := by
  exact Canonicalize_of_hasSuffixDot _ (hasSuffixDot_Canonicalize x)

/-- Witness of C1 at the name `host.example.com`. -/
theorem DeCanonicalize_Canonicalize_witness :
    HasSuffixDot "host.example.com" = false ∧
      Canonicalize "host.example.com" = "host.example.com." ∧
      DeCanonicalize (Canonicalize "host.example.com") = "host.example.com" :=
  ⟨by decide, by decide, DeCanonicalize_Canonicalize "host.example.com" (by decide)⟩

/-! ## `strings` lemmas -/

theorem indexFrom_nonneg_iff (substr : List Char) (s : List Char) (i : Nat) :
    0 ≤ indexFrom substr s i ↔ substr <:+: s := by
  induction s generalizing i with
  | nil =>
    cases substr with
    | nil => simp [indexFrom]
    | cons a as => simp [indexFrom]
  | cons c cs ih =>
    rw [List.infix_cons_iff]
    by_cases hp : substr.isPrefixOf (c :: cs) = true
    · have hp2 : substr <+: c :: cs := List.isPrefixOf_iff_prefix.1 hp
      simp [indexFrom, hp, hp2]
    · have hp2 : ¬ substr <+: c :: cs := fun h => hp (List.isPrefixOf_iff_prefix.2 h)
      simp only [indexFrom, hp, hp2, false_or]
      exact ih _

theorem Contains_iff (s substr : String) :
    Contains s substr = true ↔ substr.data <:+: s.data := by
  simp [Contains, Index, indexFrom_nonneg_iff]

theorem Contains_qualified (name zone : String) :
    Contains (name ++ "." ++ zone) zone = true := by
  rw [Contains_iff]
  simp only [String.data_append]
  exact (List.suffix_append _ _).isInfix

theorem splitAux_ne_nil (sep : Char) (cs cur : List Char) : splitAux sep cs cur ≠ [] := by
  induction cs generalizing cur with
  | nil => simp [splitAux]
  | cons c cs ih =>
    simp only [splitAux]
    split
    · simp
    · exact ih _

theorem splitAux_length (sep : Char) (cs cur : List Char) :
    (splitAux sep cs cur).length = cs.count sep + 1 := by
  induction cs generalizing cur with
  | nil => simp [splitAux]
  | cons c cs ih =>
    simp only [splitAux]
    split
    · rename_i h; subst h; simp [ih]
    · rename_i h
      rw [ih, List.count_cons_of_ne (Ne.symm h)]

theorem splitAux_no_sep (sep : Char) (cs cur : List Char) (hcur : sep ∉ cur) :
    ∀ p ∈ splitAux sep cs cur, sep ∉ p.data := by
  induction cs generalizing cur with
  | nil => simpa [splitAux] using hcur
  | cons c cs ih =>
    simp only [splitAux]
    split
    · intro p hp
      rcases List.mem_cons.1 hp with rfl | hp
      · simpa using hcur
      · exact ih [] (by simp) p hp
    · rename_i h
      exact ih (c :: cur) (by simp [hcur, Ne.symm h])

theorem intercalate_cons_of_ne_nil (sep a : List Char) (l : List (List Char)) (h : l ≠ []) :
    sep.intercalate (a :: l) = a ++ sep ++ sep.intercalate l := by
  cases l with
  | nil => exact absurd rfl h
  | cons b l => simp [List.intercalate, List.intersperse]

theorem splitAux_intercalate (sep : Char) (cs cur : List Char) :
    [sep].intercalate ((splitAux sep cs cur).map String.data) = cur.reverse ++ cs := by
  induction cs generalizing cur with
  | nil => simp [splitAux, List.intercalate]
  | cons c cs ih =>
    simp only [splitAux]
    split
    · rename_i h
      subst h
      rw [List.map_cons, intercalate_cons_of_ne_nil _ _ _ (by simpa using splitAux_ne_nil c cs []),
        ih]
      simp
    · rw [ih]; simp

theorem foldl_recordStep (rrtype : String) (setPTR : Bool) (l : List String)
    (acc : List Record) :
    l.foldl (recordStep rrtype setPTR) acc =
      acc ++ l.map (fun p =>
        { Content := if rrtype = "CNAME" ∨ rrtype = "NS" then Canonicalize (TrimSpace p)
                     else TrimSpace p,
          SetPTR := setPTR }) := by
  induction l generalizing acc with
  | nil => simp
  | cons c cs ih =>
    rw [List.foldl_cons, ih]
    simp [recordStep]

theorem rrReplaceBuild_of_not_contains (tbl : Char → Char) (f : Flags)
    (h : Contains f.name f.zone = false) :
    rrReplaceBuild tbl f = .ok
      { name := if (ToUpper tbl f.rrtype = "A" ∨ ToUpper tbl f.rrtype = "AAAA" ∨
                    ToUpper tbl f.rrtype = "NS" ∨ ToUpper tbl f.rrtype = "CNAME" ∨
                    ToUpper tbl f.rrtype = "DNAME")
                then Canonicalize (f.name ++ "." ++ f.zone) else f.name ++ "." ++ f.zone,
        zone := if (ToUpper tbl f.rrtype = "A" ∨ ToUpper tbl f.rrtype = "AAAA" ∨
                    ToUpper tbl f.rrtype = "NS" ∨ ToUpper tbl f.rrtype = "CNAME" ∨
                    ToUpper tbl f.rrtype = "DNAME")
                then Canonicalize f.zone else f.zone,
        rrtype := ToUpper tbl f.rrtype,
        rrset :=
          { Name := Canonicalize
              (if (ToUpper tbl f.rrtype = "A" ∨ ToUpper tbl f.rrtype = "AAAA" ∨
                    ToUpper tbl f.rrtype = "NS" ∨ ToUpper tbl f.rrtype = "CNAME" ∨
                    ToUpper tbl f.rrtype = "DNAME")
                then Canonicalize (f.name ++ "." ++ f.zone) else f.name ++ "." ++ f.zone),
            Type_ := ToUpper tbl f.rrtype,
            TTL := f.ttl,
            Records := buildRecords (ToUpper tbl f.rrtype) f.setPTR f.content } } := by
  unfold rrReplaceBuild
  simp only [h, Contains_qualified]
  simp

theorem rrReplaceBuild_of_contains (tbl : Char → Char) (f : Flags)
    (h : Contains f.name f.zone = true) :
    rrReplaceBuild tbl f = .error (.nameIsFQDN
      ("ERROR: Name (" ++ f.name ++ ") must not be a FQDN. Without domain " ++ f.zone ++ "\n")) := by
  simp [rrReplaceBuild, h]

theorem nameGuard_rejects (env : Env) (f : Flags)
    (h : Contains f.name f.zone = true) :
    rrReplaceBuild env.upperTable f = .error (.nameIsFQDN
        ("ERROR: Name (" ++ f.name ++ ") must not be a FQDN. Without domain " ++ f.zone ++ "\n")) ∧
      rrReplaceCmdRun env f =
        { stdout :=
            "ERROR: Name (" ++ f.name ++ ") must not be a FQDN. Without domain " ++ f.zone ++ "\n",
          exitCode := 1, apiCalls := [] } := by
  have hb := rrReplaceBuild_of_contains env.upperTable f h
  exact ⟨hb, by simp [rrReplaceCmdRun, hb, Rejection.msg]⟩

/-! ## Record-set assembly: `rr replace` -/

/-- C5: for every accepted input the records of the built set are, in order, one record per
comma-separated piece of the content string. The pieces joined by commas give the content
back, no piece holds a comma, and there are (number of commas + 1) of them; each record's
content is the trimmed piece, canonicalized exactly when the upper-cased type is CNAME or
NS, and each record carries the `setPTR` flag. -/
theorem rrReplaceBuild_records (tbl : Char → Char) (f : Flags)
    (h : Contains f.name f.zone = false) :
    ∃ b, rrReplaceBuild tbl f = .ok b ∧
      [','].intercalate ((Split f.content ',').map String.data) = f.content.data ∧
      (∀ p ∈ Split f.content ',', ',' ∉ p.data) ∧
      (Split f.content ',').length = f.content.data.count ',' + 1 ∧
      b.rrset.Records.length = f.content.data.count ',' + 1 ∧
      b.rrset.Records = (Split f.content ',').map (fun p =>
        { Content :=
            if ToUpper tbl f.rrtype = "CNAME" ∨ ToUpper tbl f.rrtype = "NS"
            then Canonicalize (TrimSpace p) else TrimSpace p,
          SetPTR := f.setPTR }) := by
  refine ⟨_, rrReplaceBuild_of_not_contains tbl f h, ?_, ?_, ?_, ?_, ?_⟩
  · simpa [Split] using splitAux_intercalate ',' f.content.data []
  · exact splitAux_no_sep ',' f.content.data [] (by simp)
  · exact splitAux_length ',' f.content.data []
  · simp [buildRecords, foldl_recordStep, Split, splitAux_length]
  · simp [buildRecords, foldl_recordStep]

/-- Witness of C5: type `a` with content `10.0.0.1, 10.0.0.2` gives the two trimmed
records, and the theorem applies to this input. -/
theorem rrReplaceBuild_records_witness :
    (∃ b, rrReplaceBuild id ⟨"host", "example.com", "a", 400, "10.0.0.1, 10.0.0.2", true⟩ = .ok b ∧
      b.rrset.Records = [⟨"10.0.0.1", true⟩, ⟨"10.0.0.2", true⟩]) ∧
    (∃ b, rrReplaceBuild id ⟨"cname", "example.com", "cname", 30, "target.example.com", false⟩
        = .ok b ∧ b.rrset.Records = [⟨"target.example.com.", false⟩]) := by
  constructor
  · obtain ⟨b, hb, -, -, -, -, hr⟩ := rrReplaceBuild_records id
      ⟨"host", "example.com", "a", 400, "10.0.0.1, 10.0.0.2", true⟩ (by decide)
    exact ⟨b, hb, by rw [hr]; decide⟩
  · obtain ⟨b, hb, -, -, -, -, hr⟩ := rrReplaceBuild_records id
      ⟨"cname", "example.com", "cname", 30, "target.example.com", false⟩ (by decide)
    exact ⟨b, hb, by rw [hr]; decide⟩

/-- C6: for every accepted input and every record type the built set's name is the
canonical form of `name + "." + zone`, its type is the upper-cased type flag and its TTL is
the ttl flag. -/
theorem rrReplaceBuild_name_type_ttl (tbl : Char → Char) (f : Flags)
    (h : Contains f.name f.zone = false) :
    ∃ b, rrReplaceBuild tbl f = .ok b ∧
      b.rrset.Name = Canonicalize (f.name ++ "." ++ f.zone) ∧
      b.rrset.Type_ = ToUpper tbl f.rrtype ∧
      b.rrset.TTL = f.ttl := by
  refine ⟨_, rrReplaceBuild_of_not_contains tbl f h, ?_, rfl, rfl⟩
  show Canonicalize (if _ then _ else _) = _
  split
  · exact Canonicalize_of_hasSuffixDot _ (hasSuffixDot_Canonicalize _)
  · rfl

/-- Witness of C6: zone `example.com` and name `host` give the name `host.example.com.`. -/
theorem rrReplaceBuild_name_type_ttl_witness :
    Canonicalize ("host" ++ "." ++ "example.com") = "host.example.com." ∧
    ToUpper id "a" = "A" ∧
    ∃ b, rrReplaceBuild id ⟨"host", "example.com", "a", 400, "10.0.0.1, 10.0.0.2", true⟩ = .ok b ∧
      b.rrset.Name = Canonicalize ("host" ++ "." ++ "example.com") ∧
      b.rrset.Type_ = ToUpper id "a" ∧
      b.rrset.TTL = 400 :=
  ⟨by decide, by decide, rrReplaceBuild_name_type_ttl id
    ⟨"host", "example.com", "a", 400, "10.0.0.1, 10.0.0.2", true⟩ (by decide)⟩

/-- C7: for every name, zone and record type (so for every non-SOA type), a name that
contains the zone is rejected by the first guard: no record set is built, the run prints
the usage error, exits with status 1 and makes no API call. A name that does not contain
the zone passes the guard, and a record set is built. -/
theorem rrReplace_name_guard (env : Env) (f : Flags) :
    (Contains f.name f.zone = true →
      rrReplaceBuild env.upperTable f = .error (.nameIsFQDN
        ("ERROR: Name (" ++ f.name ++ ") must not be a FQDN. Without domain " ++ f.zone ++ "\n")) ∧
      rrReplaceCmdRun env f =
        { stdout :=
            "ERROR: Name (" ++ f.name ++ ") must not be a FQDN. Without domain " ++ f.zone ++ "\n",
          exitCode := 1, apiCalls := [] }) ∧
    (Contains f.name f.zone = false → ∃ b, rrReplaceBuild env.upperTable f = .ok b) := by
  constructor
  · exact nameGuard_rejects env f
  · intro h
    exact ⟨_, rrReplaceBuild_of_not_contains env.upperTable f h⟩

/-- Witness of C7: `--name example.com --zone example.com --type A` is rejected, and
`--name host --zone example.com --type A` passes the guard. -/
theorem rrReplace_name_guard_witness :
    Contains "example.com" "example.com" = true ∧
    rrReplaceCmdRun ⟨id, none, fun _ _ => none, "text"⟩
        ⟨"example.com", "example.com", "A", 1800, "10.0.0.1", true⟩ =
      { stdout := "ERROR: Name (example.com) must not be a FQDN. Without domain example.com\n",
        exitCode := 1, apiCalls := [] } ∧
    Contains "host" "example.com" = false ∧
    ∃ b, rrReplaceBuild id ⟨"host", "example.com", "A", 1800, "10.0.0.1", true⟩ = .ok b :=
  ⟨by decide,
   ((rrReplace_name_guard ⟨id, none, fun _ _ => none, "text"⟩
      ⟨"example.com", "example.com", "A", 1800, "10.0.0.1", true⟩).1 (by decide)).2,
   by decide,
   (rrReplace_name_guard ⟨id, none, fun _ _ => none, "text"⟩
      ⟨"host", "example.com", "A", 1800, "10.0.0.1", true⟩).2 (by decide)⟩

/-- C8, the code at the documented SOA invocation: `rr change --name example.com
--zone example.com --type SOA` with the content
`ns1.example.com. admins.example.com. 2020060511 1800 900 604800 86400` is rejected by the name guard, whatever the environment: it exits with
status 1 and makes no API call. -/
theorem rrReplace_SOA_example_rejected (env : Env) :
    rrReplaceBuild env.upperTable
        ⟨"example.com", "example.com", "SOA", 1800,
          "ns1.example.com. admins.example.com. 2020060511 1800 900 604800 86400", true⟩ =
      .error (.nameIsFQDN
        "ERROR: Name (example.com) must not be a FQDN. Without domain example.com\n") ∧
    rrReplaceCmdRun env
        ⟨"example.com", "example.com", "SOA", 1800,
          "ns1.example.com. admins.example.com. 2020060511 1800 900 604800 86400", true⟩ =
      { stdout := "ERROR: Name (example.com) must not be a FQDN. Without domain example.com\n",
        exitCode := 1, apiCalls := [] } := by
  have h := (nameGuard_rejects env
    ⟨"example.com", "example.com", "SOA", 1800,
      "ns1.example.com. admins.example.com. 2020060511 1800 900 604800 86400", true⟩) (by decide)
  exact ⟨h.1.trans (by decide), h.2.trans (by decide)⟩

/-- C10: the second validation of `rrReplaceCmdRun` never fires. For every name and zone the
qualified name `name + "." + zone` contains the zone, no input is rejected with the "not
match with zone" error, and every rejection is the one of the name-contains-zone guard. -/
theorem rrReplace_second_check_unreachable (tbl : Char → Char) (f : Flags) :
    Contains (f.name ++ "." ++ f.zone) f.zone = true ∧
    (∀ msg, rrReplaceBuild tbl f ≠ .error (.zoneMismatch msg)) ∧
    (∀ r, rrReplaceBuild tbl f = .error r →
      Contains f.name f.zone = true ∧
      r = .nameIsFQDN
        ("ERROR: Name (" ++ f.name ++ ") must not be a FQDN. Without domain " ++ f.zone ++ "\n")) := by
  have key : ∀ r, rrReplaceBuild tbl f = .error r →
      Contains f.name f.zone = true ∧
      r = .nameIsFQDN
        ("ERROR: Name (" ++ f.name ++ ") must not be a FQDN. Without domain " ++ f.zone ++ "\n") := by
    intro r hr
    by_cases h : Contains f.name f.zone = true
    · refine ⟨h, ?_⟩
      rw [rrReplaceBuild_of_contains tbl f h] at hr
      cases hr; rfl
    · simp only [Bool.not_eq_true] at h
      rw [rrReplaceBuild_of_not_contains tbl f h] at hr
      cases hr
  refine ⟨Contains_qualified _ _, ?_, key⟩
  intro msg hm
  have := (key _ hm).2
  cases this

/-- Witness of C10 at a rejected input: the rejection of
`--name example.com --zone example.com` is the one of the name guard, and the qualified name contains the zone. -/
theorem rrReplace_second_check_unreachable_witness :
    Contains ("example.com" ++ "." ++ "example.com") "example.com" = true ∧
    Contains "example.com" "example.com" = true ∧
    Rejection.nameIsFQDN
        "ERROR: Name (example.com) must not be a FQDN. Without domain example.com\n" =
      .nameIsFQDN
        ("ERROR: Name (" ++ "example.com" ++ ") must not be a FQDN. Without domain "
          ++ "example.com" ++ "\n") :=
  ⟨(rrReplace_second_check_unreachable id
      ⟨"example.com", "example.com", "A", 1800, "10.0.0.1", true⟩).1,
   (rrReplace_second_check_unreachable id
      ⟨"example.com", "example.com", "A", 1800, "10.0.0.1", true⟩).2.2 _ (by decide)⟩

/-! ## Search-result rendering -/

theorem foldl_rowLine (l : List SearchResult) (out : List String) :
    l.foldl (fun out r => out ++ [rowLine r]) out = out ++ l.map rowLine := by
  induction l generalizing out with
  | nil => simp
  | cons r rs ih => rw [List.foldl_cons, ih]; simp

theorem lessContent_false_iff (a b : SearchResult) :
    lessContent b a = false ↔ a.Content ≤ b.Content := by
  rw [← not_lt, String.lt_iff_toList_lt]
  simp [lessContent, String.toList]

theorem insertRev_perm (less : α → α → Bool) (x : α) (l : List α) :
    (insertRev less x l).Perm (x :: l) := by
  induction l with
  | nil => simp [insertRev]
  | cons y ys ih =>
    simp only [insertRev]
    split
    · exact (List.Perm.cons y ih).trans (List.Perm.swap x y ys)
    · exact List.Perm.refl _

theorem insertionSortLessFunc_perm (less : α → α → Bool) (l : List α) :
    (insertionSortLessFunc less l).Perm l := by
  have key : ∀ (l acc : List α),
      (l.foldl (fun acc x => insertRev less x acc) acc).Perm (l.reverse ++ acc) := by
    intro l
    induction l with
    | nil => intro acc; simp
    | cons x xs ih =>
      intro acc
      rw [List.foldl_cons]
      refine (ih _).trans ?_
      rw [List.reverse_cons, List.append_assoc]
      exact List.Perm.append_left _ (insertRev_perm less x acc)
  unfold insertionSortLessFunc
  refine (List.reverse_perm _).trans ((key l []).trans ?_)
  simp

theorem insertRev_sorted (less : α → α → Bool)
    (hasym : ∀ a b, less a b = true → less b a = false)
    (htrans : ∀ a b c, less a b = false → less b c = false → less a c = false)
    (x : α) (l : List α) (hl : l.Pairwise (fun a b => less a b = false)) :
    (insertRev less x l).Pairwise (fun a b => less a b = false) := by
  induction l with
  | nil => simp [insertRev]
  | cons y ys ih =>
    rw [List.pairwise_cons] at hl
    simp only [insertRev]
    split
    · rename_i hxy
      rw [List.pairwise_cons]
      refine ⟨?_, ih hl.2⟩
      intro z hz
      rcases List.mem_cons.1 ((insertRev_perm less x ys).subset hz) with rfl | hz
      · exact hasym _ _ hxy
      · exact hl.1 z hz
    · rename_i hxy
      simp only [Bool.not_eq_true] at hxy
      rw [List.pairwise_cons]
      refine ⟨?_, List.pairwise_cons.2 hl⟩
      intro z hz
      rcases List.mem_cons.1 hz with rfl | hz
      · exact hxy
      · exact htrans _ _ _ hxy (hl.1 z hz)

theorem insertionSortLessFunc_sorted (less : α → α → Bool)
    (hasym : ∀ a b, less a b = true → less b a = false)
    (htrans : ∀ a b c, less a b = false → less b c = false → less a c = false)
    (l : List α) :
    (insertionSortLessFunc less l).Pairwise (fun a b => less b a = false) := by
  have key : ∀ (l acc : List α), acc.Pairwise (fun a b => less a b = false) →
      (l.foldl (fun acc x => insertRev less x acc) acc).Pairwise
        (fun a b => less a b = false) := by
    intro l
    induction l with
    | nil => intro acc h; exact h
    | cons x xs ih =>
      intro acc h
      rw [List.foldl_cons]
      exact ih _ (insertRev_sorted less hasym htrans x acc h)
  unfold insertionSortLessFunc
  rw [List.pairwise_reverse]
  exact key l [] List.Pairwise.nil

theorem lessContent_asymm (a b : SearchResult) (h : lessContent a b = true) :
    lessContent b a = false := by
  rw [lessContent_false_iff]
  have : ¬ lessContent a b = false := by simp [h]
  rw [lessContent_false_iff, not_le] at this
  exact le_of_lt this

theorem lessContent_negTrans (a b c : SearchResult) (h1 : lessContent a b = false)
    (h2 : lessContent b c = false) : lessContent a c = false := by
  rw [lessContent_false_iff] at *
  exact le_trans h2 h1

/-- C9: whenever `sort.Slice` meets its contract on the input (its result is a permutation
of the slice in which no element is less than an earlier one), the data rows that
`PrettyString` writes after the header and the dashed separator are the rows of a
permutation of the input results, one row per result, in non-decreasing order of
content. -/
theorem PrettyString_rows_sorted
    (sortSlice : (SearchResult → SearchResult → Bool) → SearchResults → SearchResults)
    (tabwriter : String → String) (rs : SearchResults)
    (hperm : (sortSlice lessContent rs).Perm rs)
    (hsorted : (sortSlice lessContent rs).Pairwise (fun a b => lessContent b a = false)) :
    ∃ sorted : SearchResults,
      sorted.Perm rs ∧
      sorted.Pairwise (fun a b => a.Content ≤ b.Content) ∧
      prettyLines sortSlice rs = headerLine :: dashLine :: sorted.map rowLine ∧
      ((prettyLines sortSlice rs).drop 2).length = rs.length ∧
      PrettyString sortSlice tabwriter rs =
        tabwriter (String.join (headerLine :: dashLine :: sorted.map rowLine)) := by
  have hl : prettyLines sortSlice rs =
      headerLine :: dashLine :: (sortSlice lessContent rs).map rowLine := by
    simp [prettyLines, foldl_rowLine]
  refine ⟨sortSlice lessContent rs, hperm, ?_, hl, ?_, ?_⟩
  · exact hsorted.imp (fun {a b} h => (lessContent_false_iff a b).1 h)
  · rw [hl]; simpa using hperm.length_eq
  · rw [PrettyString, hl]

/-- Witness of C9: with Go's insertion sort for `sort.Slice`, the results with contents `b`
and `a` are rendered with the row of `a` before the row of `b`. -/
theorem PrettyString_rows_sorted_witness :
    prettyLines insertionSortLessFunc
        [⟨"b", false, "x.example.com.", 3, "example.com.", "example.com.", "TXT", 30⟩,
         ⟨"a", false, "y.example.com.", 3, "example.com.", "example.com.", "TXT", 60⟩] =
      [headerLine, dashLine,
       "a\tfalse\ty.example.com\trecord\texample.com\texample.com\tTXT\t60\n",
       "b\tfalse\tx.example.com\trecord\texample.com\texample.com\tTXT\t30\n"] ∧
    ∃ sorted : SearchResults,
      sorted.Perm
        [⟨"b", false, "x.example.com.", 3, "example.com.", "example.com.", "TXT", 30⟩,
         ⟨"a", false, "y.example.com.", 3, "example.com.", "example.com.", "TXT", 60⟩] ∧
      sorted.Pairwise (fun a b => a.Content ≤ b.Content) ∧
      prettyLines insertionSortLessFunc
        [⟨"b", false, "x.example.com.", 3, "example.com.", "example.com.", "TXT", 30⟩,
         ⟨"a", false, "y.example.com.", 3, "example.com.", "example.com.", "TXT", 60⟩] =
        headerLine :: dashLine :: sorted.map rowLine ∧
      ((prettyLines insertionSortLessFunc
        [⟨"b", false, "x.example.com.", 3, "example.com.", "example.com.", "TXT", 30⟩,
         ⟨"a", false, "y.example.com.", 3, "example.com.", "example.com.", "TXT", 60⟩]).drop 2).length
        = 2 ∧
      PrettyString insertionSortLessFunc id
        [⟨"b", false, "x.example.com.", 3, "example.com.", "example.com.", "TXT", 30⟩,
         ⟨"a", false, "y.example.com.", 3, "example.com.", "example.com.", "TXT", 60⟩] =
        id (String.join (headerLine :: dashLine :: sorted.map rowLine)) :=
  ⟨by decide,
   PrettyString_rows_sorted insertionSortLessFunc id
     [⟨"b", false, "x.example.com.", 3, "example.com.", "example.com.", "TXT", 30⟩,
      ⟨"a", false, "y.example.com.", 3, "example.com.", "example.com.", "TXT", 60⟩]
     (insertionSortLessFunc_perm _ _)
     (insertionSortLessFunc_sorted _ lessContent_asymm lessContent_negTrans _)⟩

/-! ## Decimal text and `strconv.Atoi` -/

theorem digitChar_spec : ∀ m, m < 10 →
    IsDigit (Nat.digitChar m) ∧ (Nat.digitChar m).toNat - 48 = m := by
  unfold IsDigit
  decide

theorem toDigitsCore_isDigit (fuel n : Nat) (ds : List Char) (hds : ∀ c ∈ ds, IsDigit c) :
    ∀ c ∈ Nat.toDigitsCore 10 fuel n ds, IsDigit c := by
  induction fuel generalizing n ds with
  | zero => simpa [Nat.toDigitsCore] using hds
  | succ fuel ih =>
    have hd := (digitChar_spec (n % 10) (Nat.mod_lt _ (by decide))).1
    have hds2 : ∀ c ∈ Nat.digitChar (n % 10) :: ds, IsDigit c := by
      intro c hc
      rcases List.mem_cons.1 hc with rfl | hc
      · exact hd
      · exact hds c hc
    simp only [Nat.toDigitsCore]
    split
    · exact hds2
    · exact ih _ _ hds2

theorem toDigitsCore_ne_nil (fuel n : Nat) (ds : List Char) :
    Nat.toDigitsCore 10 (fuel + 1) n ds ≠ [] := by
  induction fuel generalizing n ds with
  | zero =>
    simp only [Nat.toDigitsCore]
    split <;> simp
  | succ fuel ih =>
    rw [Nat.toDigitsCore]
    split
    · simp
    · exact ih _ _

theorem toDigitsCore_value (fuel n : Nat) (ds : List Char) (h : n < fuel) :
    (Nat.toDigitsCore 10 fuel n ds).foldl digitStep 0 = ds.foldl digitStep n := by
  induction fuel generalizing n ds with
  | zero => omega
  | succ fuel ih =>
    have hd := (digitChar_spec (n % 10) (Nat.mod_lt _ (by decide))).2
    simp only [Nat.toDigitsCore]
    split
    · rename_i h0
      rw [List.foldl_cons]
      congr 1
      simp only [digitStep, hd]
      omega
    · rename_i h0
      rw [ih (n / 10) _ (by omega), List.foldl_cons]
      congr 1
      simp only [digitStep, hd]
      omega

theorem le_foldl_digitStep (cs : List Char) (acc : Nat) : acc ≤ cs.foldl digitStep acc := by
  induction cs generalizing acc with
  | nil => simp
  | cons c cs ih =>
    rw [List.foldl_cons]
    refine le_trans ?_ (ih _)
    simp only [digitStep]
    omega

theorem parseUintLoop_digits (cs : List Char) (acc : Nat) (hcs : ∀ c ∈ cs, IsDigit c)
    (hacc : acc ≤ 2 ^ intSize - 1) :
    parseUintLoop cs acc =
      if cs.foldl digitStep acc ≤ 2 ^ intSize - 1 then .ok (cs.foldl digitStep acc)
      else .error .ErrRange := by
  induction cs generalizing acc with
  | nil =>
    simp only [parseUintLoop, List.foldl_nil, if_pos hacc]
  | cons c cs ih =>
    have hc : IsDigit c := hcs c (List.mem_cons_self _ _)
    have hc2 : '0'.toNat ≤ c.toNat ∧ c.toNat ≤ '9'.toNat := hc
    simp only [parseUintLoop, hc2, and_self, if_true, List.foldl_cons]
    have e : acc * 10 + (c.toNat - '0'.toNat) = digitStep acc c := rfl
    rw [e]
    by_cases hov : digitStep acc c > 2 ^ intSize - 1
    · have := le_foldl_digitStep cs (digitStep acc c)
      rw [if_pos hov, if_neg (by omega)]
    · rw [if_neg hov]
      exact ih _ (fun c hc => hcs c (List.mem_cons_of_mem _ hc)) (by omega)

theorem parseUintLoop_toDigits (n : Nat) :
    parseUintLoop (Nat.toDigits 10 n) 0 =
      if n ≤ 2 ^ intSize - 1 then .ok n else .error .ErrRange := by
  have hv : (Nat.toDigits 10 n).foldl digitStep 0 = n := by
    simpa [Nat.toDigits] using toDigitsCore_value (n + 1) n [] (by omega)
  have hd : ∀ c ∈ Nat.toDigits 10 n, IsDigit c :=
    toDigitsCore_isDigit (n + 1) n [] (by simp)
  rw [parseUintLoop_digits _ 0 hd (Nat.zero_le _), hv]

theorem parseSigned_toDigits (neg : Bool) (n : Nat) :
    parseSigned neg (Nat.toDigits 10 n) =
      if neg then (if n ≤ 2 ^ (intSize - 1) then .ok (-(n : Int)) else .error .ErrRange)
      else (if n < 2 ^ (intSize - 1) then .ok (n : Int) else .error .ErrRange) := by
  have hne : (Nat.toDigits 10 n).isEmpty = false := by
    rw [List.isEmpty_eq_false]
    exact toDigitsCore_ne_nil n n []
  unfold parseSigned
  rw [hne, parseUintLoop_toDigits]
  have hpow : 2 ^ (intSize - 1) ≤ 2 ^ intSize - 1 := by unfold intSize; norm_num
  cases neg
  · by_cases h1 : n < 2 ^ (intSize - 1)
    · have h2 : n ≤ 2 ^ intSize - 1 := by omega
      simp [h1, h2]
    · by_cases h2 : n ≤ 2 ^ intSize - 1
      · simp [h1, h2]
      · simp [h1, h2]
  · by_cases h1 : n ≤ 2 ^ (intSize - 1)
    · have h2 : n ≤ 2 ^ intSize - 1 := by omega
      simp [h1, h2]
    · by_cases h2 : n ≤ 2 ^ intSize - 1
      · simp [h1, h2]
      · simp [h1, h2]

theorem Atoi_toDigits (n : Nat) :
    Atoi ⟨Nat.toDigits 10 n⟩ = parseSigned false (Nat.toDigits 10 n) := by
  have hd : ∀ c ∈ Nat.toDigits 10 n, IsDigit c :=
    toDigitsCore_isDigit (n + 1) n [] (by simp)
  have hne : Nat.toDigits 10 n ≠ [] := toDigitsCore_ne_nil n n []
  unfold Atoi
  cases hl : Nat.toDigits 10 n with
  | nil => exact absurd hl hne
  | cons c cs =>
    have hc : IsDigit c := hd c (by rw [hl]; exact List.mem_cons_self _ _)
    have h1 : c ≠ '-' := by
      rintro rfl; revert hc; unfold IsDigit; decide
    have h2 : c ≠ '+' := by
      rintro rfl; revert hc; unfold IsDigit; decide
    simp [h1, h2]

/-- The value `strconv.Atoi` gives on the decimal text of an integer: the integer itself
when it fits the type `int`, a range error otherwise. -/
theorem Atoi_fmtInt (n : Int) :
    Atoi (fmtInt n) =
      if -(2 : Int) ^ (intSize - 1) ≤ n ∧ n < (2 : Int) ^ (intSize - 1) then .ok n
      else .error .ErrRange := by
  have hI : (2 : Int) ^ (intSize - 1) = 9223372036854775808 := by unfold intSize; norm_num
  have hN : (2 : Nat) ^ (intSize - 1) = 9223372036854775808 := by unfold intSize; norm_num
  rw [hI]
  unfold fmtInt
  by_cases hn : n < 0
  · rw [if_pos hn]
    have hdata : ("-" ++ Nat.repr n.natAbs).data = '-' :: Nat.toDigits 10 n.natAbs := by
      simp [String.data_append, Nat.repr, List.asString]
    unfold Atoi
    rw [hdata]
    simp only [if_true]
    rw [parseSigned_toDigits, hN]
    simp only [if_true]
    have hcast : -((n.natAbs : Nat) : Int) = n := by omega
    by_cases h : n.natAbs ≤ 9223372036854775808
    · rw [if_pos h, if_pos (by omega), hcast]
    · rw [if_neg h, if_neg (by omega)]
  · rw [if_neg hn]
    have hrepr : Nat.repr n.natAbs = ⟨Nat.toDigits 10 n.natAbs⟩ := rfl
    rw [hrepr, Atoi_toDigits, parseSigned_toDigits, hN]
    simp only [Bool.false_eq_true, if_false]
    have hcast : ((n.natAbs : Nat) : Int) = n := by omega
    by_cases h : n.natAbs < 9223372036854775808
    · rw [if_pos h, if_pos (by omega), hcast]
    · rw [if_neg h, if_neg (by omega)]

/-! ## Object-type decoding -/

theorem UnmarshalJSON_fmtInt_ok (t : ObjectType) (n : Int)
    (h : -(2 : Int) ^ (intSize - 1) ≤ n ∧ n < (2 : Int) ^ (intSize - 1)) :
    UnmarshalJSON t (fmtInt n) =
      if n = ObjectTypeAll then (ObjectTypeAll, none)
      else if n = ObjectTypeZone then (ObjectTypeZone, none)
      else if n = ObjectTypeRecord then (ObjectTypeRecord, none)
      else if n = ObjectTypeComment then (ObjectTypeComment, none)
      else (t, some (.errorf ("unknown search type: " ++ fmtInt n ++ "\x27"))) := by
  unfold UnmarshalJSON
  rw [Atoi_fmtInt, if_pos h]

theorem UnmarshalJSON_fmtInt_range (t : ObjectType) (n : Int)
    (h : ¬ (-(2 : Int) ^ (intSize - 1) ≤ n ∧ n < (2 : Int) ^ (intSize - 1))) :
    UnmarshalJSON t (fmtInt n) = (t, some (.numError (fmtInt n) .ErrRange)) := by
  unfold UnmarshalJSON
  rw [Atoi_fmtInt, if_neg h]

/-- C4, amended: on the decimal text of an integer `n`, `UnmarshalJSON` stores All, Zone,
Record, Comment for `n = 1, 2, 3, 4`; for every other `n` that fits the type `int` it fails
with the `fmt.Errorf` error whose message starts with `unknown search type: ` followed by
the raw text, and stores nothing; for every `n` outside the range of `int` it fails with the
range error of `strconv.Atoi` and stores nothing. -/
theorem UnmarshalJSON_decimal (t : ObjectType) (n : Int) :
    (n = 1 → UnmarshalJSON t (fmtInt n) = (ObjectTypeAll, none)) ∧
    (n = 2 → UnmarshalJSON t (fmtInt n) = (ObjectTypeZone, none)) ∧
    (n = 3 → UnmarshalJSON t (fmtInt n) = (ObjectTypeRecord, none)) ∧
    (n = 4 → UnmarshalJSON t (fmtInt n) = (ObjectTypeComment, none)) ∧
    (n ≠ 1 → n ≠ 2 → n ≠ 3 → n ≠ 4 →
      -(2 : Int) ^ (intSize - 1) ≤ n → n < (2 : Int) ^ (intSize - 1) →
      ∃ rest, UnmarshalJSON t (fmtInt n) =
        (t, some (.errorf ("unknown search type: " ++ fmtInt n ++ rest)))) ∧
    (n < -(2 : Int) ^ (intSize - 1) ∨ (2 : Int) ^ (intSize - 1) ≤ n →
      UnmarshalJSON t (fmtInt n) = (t, some (.numError (fmtInt n) .ErrRange))) := by
  refine ⟨?_, ?_, ?_, ?_, ?_, ?_⟩
  · rintro rfl; rfl
  · rintro rfl; rfl
  · rintro rfl; rfl
  · rintro rfl; rfl
  · intro h1 h2 h3 h4 hlo hhi
    refine ⟨"\x27", ?_⟩
    rw [UnmarshalJSON_fmtInt_ok t n ⟨hlo, hhi⟩]
    simp [ObjectTypeAll, ObjectTypeZone, ObjectTypeRecord, ObjectTypeComment, h1, h2, h3, h4]
  · intro h
    apply UnmarshalJSON_fmtInt_range
    rintro ⟨hlo, hhi⟩
    rcases h with h | h
    · exact absurd hlo (not_le.2 h)
    · exact absurd hhi (not_lt.2 h)

/-- Witness of the amended C4 at the codes 1, 0, 5 and at `2 ^ 63`. -/
theorem UnmarshalJSON_decimal_witness :
    UnmarshalJSON 0 (fmtInt 1) = (ObjectTypeAll, none) ∧
    (∃ rest, UnmarshalJSON 7 (fmtInt 0) =
      (7, some (.errorf ("unknown search type: " ++ fmtInt 0 ++ rest)))) ∧
    (∃ rest, UnmarshalJSON 7 (fmtInt 5) =
      (7, some (.errorf ("unknown search type: " ++ fmtInt 5 ++ rest)))) ∧
    UnmarshalJSON 7 (fmtInt 9223372036854775808) =
      (7, some (.numError (fmtInt 9223372036854775808) .ErrRange)) :=
  ⟨(UnmarshalJSON_decimal 0 1).1 rfl,
   (UnmarshalJSON_decimal 7 0).2.2.2.2.1 (by decide) (by decide) (by decide) (by decide)
     (by decide) (by decide),
   (UnmarshalJSON_decimal 7 5).2.2.2.2.1 (by decide) (by decide) (by decide) (by decide)
     (by decide) (by decide),
   (UnmarshalJSON_decimal 7 9223372036854775808).2.2.2.2.2 (Or.inr (by decide))⟩

/-- C4 as stated fails: `2 ^ 63` is an integer other than 1, 2, 3, 4, and on its decimal text
`UnmarshalJSON` returns the range error of `strconv.Atoi`, whose message is not
`unknown search type: 9223372036854775808`. -/
theorem UnmarshalJSON_out_of_range :
    fmtInt 9223372036854775808 = "9223372036854775808" ∧
    UnmarshalJSON 0 (fmtInt 9223372036854775808) =
      (0, some (.numError "9223372036854775808" .ErrRange)) ∧
    (UnmarshalJSON 0 (fmtInt 9223372036854775808)).2 ≠
      some (.errorf ("unknown search type: " ++ fmtInt 9223372036854775808)) ∧
    (∀ quote : String → String,
      (UnmarshalError.numError "9223372036854775808" .ErrRange).Error quote ≠
        "unknown search type: " ++ fmtInt 9223372036854775808) := by
  refine ⟨by decide, by decide, by decide, ?_⟩
  intro quote h
  have hd := congrArg String.data h
  simp [UnmarshalError.Error, String.data_append] at hd

/-- The text of the `fmt.Errorf` error on the code 5: the format string of line 74 ends in
an apostrophe, which follows the raw text in the message. -/
theorem UnmarshalJSON_unknown_five :
    UnmarshalJSON 0 "5" = (0, some (.errorf "unknown search type: 5\x27")) := by
  decide

end Dnscli
